import Mathlib

/-!
# zlint: the S/MIME legacy AIA lint and the rule executor

A shallow embedding of `v3/lints/cabf_smime_br/lint_legacy_aia_contains_internal_names.go`
(`smimeLegacyAIAContainsInternalNames.Execute`), of the executor of section 4.3 of the
specification, and of the lint `e_validity_time_not_positive`.

External code is explicit:
* `url.Parse` (Go standard library) and `util.HasValidTLD` are the two fields of `Env`;
* every call of `time.Now()` reads the next value of a clock `now : Nat → Time`, the
  `k`-th call (counted from 0) returning `now k`.

In the concrete examples instants are seconds counted from 2023-01-01T00:00:00Z, so that
instant `0` is that moment and `-236822400` is 2015-07-01T00:00:00Z.
-/

namespace ZLint

/-- An instant on the time line (Go `time.Time`, compared with `Before` and `After`). -/
abbrev Time := Int

/-- Modelled from the spec: the type `lint.LintStatus` is declared in `v3/lint/result.go`,
which is missing; these are the verdicts of section 3 of the specification
(`lint.Pass`, `lint.Error`, `lint.Warn`, `lint.Notice` are the ones the sources name). -/
inductive LintStatus where
  | Pass
  | Error
  | Warn
  | Notice
  | NotApplicable
  | Fatal
  deriving DecidableEq, Repr

/-- The Go struct `lint.LintResult`; a field left out of a composite literal is `""`. -/
structure LintResult where
  Status : LintStatus
  Details : String
  deriving DecidableEq, Repr

/-- The part of `*url.URL` that `Execute` reads: the field `Scheme` and the value of the
method `Hostname()`. -/
structure URL where
  Scheme : String
  Hostname : String
  deriving DecidableEq, Repr

/-- The fields of `x509.Certificate` read by the lints and by the executor. -/
structure Certificate where
  NotBefore : Time
  NotAfter : Time
  OCSPServer : List String
  IssuingCertificateURL : List String
  deriving DecidableEq, Repr

/-- The two functions `Execute` calls that are not part of the source file:
`url.Parse` (`none` stands for `err != nil`) and `util.HasValidTLD`. -/
structure Env where
  urlParse : String → Option URL
  HasValidTLD : String → Time → Bool

/-- The detail text of the two `Error` results that carry one. -/
def httpDetail : String := "at least one accessMethod MUST have the URI scheme HTTP"

/-- One `for _, u := range ...` loop of `Execute`. The state is the variable
`atLeastOneHttp` and the number `tick` of calls of `time.Now()` made so far; a `return`
inside the loop is `Except.error`, falling out of the loop is `Except.ok`. -/
def scanURLs (env : Env) (now : Nat → Time) :
    List String → Bool → Nat → Except LintResult (Bool × Nat)
  | [], atLeastOneHttp, tick => .ok (atLeastOneHttp, tick)
  | u :: rest, atLeastOneHttp, tick =>
    match env.urlParse u with
    | none => .error { Status := .Error, Details := "" }
    | some purl =>
      if !env.HasValidTLD purl.Hostname (now tick) then
        .error { Status := .Warn, Details := "" }
      else if purl.Scheme == "http" then
        scanURLs env now rest true (tick + 1)
      else
        scanURLs env now rest atLeastOneHttp (tick + 1)

/-- The method `smimeLegacyAIAContainsInternalNames.Execute`. -/
def Execute (env : Env) (now : Nat → Time) (c : Certificate) : LintResult :=
  match scanURLs env now c.OCSPServer false 0 with
  | .error r => r
  | .ok (atLeastOneHttp, tick) =>
    if !atLeastOneHttp && c.OCSPServer.length != 0 then
      { Status := .Error, Details := httpDetail }
    else
      match scanURLs env now c.IssuingCertificateURL false tick with
      | .error r => r
      | .ok (atLeastOneHttp, _) =>
        if !atLeastOneHttp && c.IssuingCertificateURL.length != 0 then
          { Status := .Error, Details := httpDetail }
        else
          { Status := .Pass, Details := "" }

/-! ## Vocabulary of the statements -/

/-- The URL string parses and its scheme is `http`. -/
def isHttp (env : Env) (u : String) : Bool :=
  match env.urlParse u with
  | some purl => purl.Scheme == "http"
  | none => false

/-- The list contains at least one URL whose scheme is `http`. -/
def containsHttp (env : Env) (urls : List String) : Bool :=
  urls.any (isHttp env)

/-- The URL string parses and its hostname is under a valid TLD at every reading of the
clock. -/
def parsesWithValidTLD (env : Env) (now : Nat → Time) (u : String) : Prop :=
  ∃ purl, env.urlParse u = some purl ∧ ∀ k, env.HasValidTLD purl.Hostname (now k) = true

/-- The URL string parses and its hostname is under no valid TLD at any reading of the
clock. -/
def parsesWithInvalidTLD (env : Env) (now : Nat → Time) (u : String) : Prop :=
  ∃ purl, env.urlParse u = some purl ∧ ∀ k, env.HasValidTLD purl.Hostname (now k) = false

/-! ## A sample environment -/

/-- A finite sample of `url.Parse`: its results on the URL strings used below. The only
other string used is `"://ocsp.example.com"`, which `url.Parse` rejects (no scheme before
the colon). -/
def sampleParse (u : String) : Option URL :=
  if u = "http://ocsp.example.com" then some ⟨"http", "ocsp.example.com"⟩
  else if u = "http://ca.example.com/ca.crt" then some ⟨"http", "ca.example.com"⟩
  else if u = "ldap://ldap.example.com/cn=CA" then some ⟨"ldap", "ldap.example.com"⟩
  else if u = "ldap://dc01.corp.internal/cn=CA" then some ⟨"ldap", "dc01.corp.internal"⟩
  else if u = "http://ca.corp.internal/ca.crt" then some ⟨"http", "ca.corp.internal"⟩
  else if u = "http://ocsp.example.active" then some ⟨"http", "ocsp.example.active"⟩
  else if u = "http://ca.example.active/ca.crt" then some ⟨"http", "ca.example.active"⟩
  else none

/-- A sample of `util.HasValidTLD` on the hostnames used below, instants being seconds
counted from 2023-01-01T00:00:00Z. The TLD `com` is taken as valid at every instant (it
is in the root zone since 1985, before every instant used below); `internal` is no TLD at
any instant; the gTLD `active`, delegated in
2014 and removed from the root zone in 2019, is valid from 2015-01-01 (`-252460800`) to
2019-01-01 (`-126230400`) and not after its removal (the sample leaves out the months
between its delegation and 2015 and the weeks between 2019-01-01 and its removal). -/
def sampleHasValidTLD (host : String) (t : Time) : Bool :=
  if host = "ocsp.example.com" ∨ host = "ca.example.com" ∨ host = "ldap.example.com" then true
  else if host = "ocsp.example.active" ∨ host = "ca.example.active" then
    decide (-252460800 ≤ t ∧ t < -126230400)
  else false

/-- The sample environment. -/
def sampleEnv : Env := ⟨sampleParse, sampleHasValidTLD⟩

/-- A clock that stands still at instant `t`. -/
def constClock (t : Time) : Nat → Time := fun _ => t

/-- A certificate with the given AIA lists (validity from `0` to `1`). -/
def aiaCert (ocsp issuing : List String) : Certificate :=
  { NotBefore := 0, NotAfter := 1, OCSPServer := ocsp, IssuingCertificateURL := issuing }

/-- The requirement of BRs 7.1.2.3c, read list by list: each of the two lists that is
non-empty contains at least one URL whose scheme is `http`. -/
def httpRequirementMet (env : Env) (c : Certificate) : Prop :=
  (c.OCSPServer ≠ [] → containsHttp env c.OCSPServer = true) ∧
  (c.IssuingCertificateURL ≠ [] → containsHttp env c.IssuingCertificateURL = true)

/-- A certificate that meets the requirement: an `http` and an `ldap` OCSP responder and
an `http` CA issuer, all under `com`. -/
def goodCert : Certificate :=
  aiaCert ["http://ocsp.example.com", "ldap://ldap.example.com/cn=CA"]
    ["http://ca.example.com/ca.crt"]

/-- A certificate whose only OCSP responder is under the former gTLD `active`. -/
def activeCert : Certificate := aiaCert ["http://ocsp.example.active"] []

/-- A clock that is set forward after its second reading: it reads 2015-07-01T00:00:00Z
twice and 2023-01-01T00:00:00Z from then on. -/
def steppedClock (k : Nat) : Time := if k < 2 then -236822400 else 0

/-- A certificate whose only OCSP responder is an `ldap` URL under `com`. -/
def ldapOnlyCert : Certificate := aiaCert ["ldap://ldap.example.com/cn=CA"] []

/-- A certificate with an `ldap` OCSP responder under `com` and a CA issuer URL on an
internal name. -/
def internalIssuerCert : Certificate :=
  aiaCert ["ldap://ldap.example.com/cn=CA"] ["http://ca.corp.internal/ca.crt"]

/-- A certificate with an `http` OCSP responder under `com` and, after an `http` CA issuer
URL under `com`, an `ldap` CA issuer URL on an internal name. -/
def internalLastCert : Certificate :=
  aiaCert ["http://ocsp.example.com"]
    ["http://ca.example.com/ca.crt", "ldap://dc01.corp.internal/cn=CA"]

/-- The certificate `goodCert` with an `ldap` URL under `com` added at the end of its CA
issuer list. -/
def goodCertPlusLdap : Certificate :=
  { goodCert with IssuingCertificateURL :=
      ["http://ca.example.com/ca.crt"] ++ "ldap://ldap.example.com/cn=CA" :: [] }

/-! ## The executor of section 4.3 and the lint `e_validity_time_not_positive` -/

/-- Modelled from the spec: the Descriptor of section 3 (`lint.LintMetadata`, declared in the
missing `v3/lint/base.go`), with the fields the executor reads: the name, the effective
date and the optional ineffective date. -/
structure Descriptor where
  name : String
  effectiveDate : Time
  ineffectiveDate : Option Time

/-- Modelled from the spec: the Rule of section 3, a descriptor with the two operations
`checkApplies` and `execute`; `Except.error` is an unexpected failure of the rule body. -/
structure Rule where
  descriptor : Descriptor
  checkApplies : Certificate → Bool
  execute : Certificate → Except String LintResult

/-- Modelled from the spec: the time-window applicability of step 1 of section 4.3 (the
executor is not among the sources): `certificate.notBefore >= descriptor.effectiveDate` and
`descriptor.ineffectiveDate` absent or `certificate.notBefore < descriptor.ineffectiveDate`. -/
def inTimeWindow (d : Descriptor) (c : Certificate) : Bool :=
  decide (c.NotBefore ≥ d.effectiveDate) &&
    (match d.ineffectiveDate with
     | none => true
     | some sunset => decide (c.NotBefore < sunset))

/-- Modelled from the spec: steps 1 to 3 of the executor of section 4.3 for one rule (the
executor is not among the sources). The second component counts the invocations of
`execute`. -/
def runRule (r : Rule) (c : Certificate) : LintResult × Nat :=
  if !inTimeWindow r.descriptor c then (⟨.NotApplicable, ""⟩, 0)
  else if !r.checkApplies c then (⟨.NotApplicable, ""⟩, 0)
  else
    match r.execute c with
    | .ok verdict => (verdict, 1)
    | .error diagnostic => (⟨.Fatal, diagnostic⟩, 1)

/-- The rule registered by `init` in `lint_legacy_aia_contains_internal_names.go`. The
constant `util.CABEffectiveDate` and the function `util.IsLegacySMIMECertificate` are not
among the sources and are parameters. -/
def smimeLegacyAIARule (env : Env) (now : Nat → Time) (CABEffectiveDate : Time)
    (IsLegacySMIMECertificate : Certificate → Bool) : Rule :=
  { descriptor :=
      { name := "w_smime_legacy_aia_contains_internal_names"
        effectiveDate := CABEffectiveDate
        ineffectiveDate := none }
    checkApplies := IsLegacySMIMECertificate
    execute := fun c => .ok (Execute env now c) }

/-- The rule `e_example` of scenario 1 of section 8: effective from instant `2020`, no
sunset, applying to every certificate, its body failing when invoked. -/
def exampleRule : Rule :=
  { descriptor := { name := "e_example", effectiveDate := 2020, ineffectiveDate := none }
    checkApplies := fun _ => true
    execute := fun _ => .error "invoked" }

/-- Modelled from the spec: the body of the lint `e_validity_time_not_positive`
(`v3/lints/community/lint_validity_time_not_positive.go`) is missing; only its tests
`TestValidityNegative` and `TestValidityPositive` are among the sources. This is the check
they name: `Error` when not-after is earlier than not-before, `Pass` when it is later. The
verdict on a certificate whose not-after equals its not-before is fixed by neither test and
is the parameter `zeroVerdict`. -/
def validityTimeNotPositive (zeroVerdict : LintStatus) (c : Certificate) : LintResult :=
  if c.NotAfter < c.NotBefore then ⟨.Error, ""⟩
  else if c.NotBefore < c.NotAfter then ⟨.Pass, ""⟩
  else ⟨zeroVerdict, ""⟩

/-! # Theorems -/

/-! ## The loop -/

theorem scanURLs_of_valid (env : Env) (now : Nat → Time) (urls : List String)
    (h : ∀ u ∈ urls, parsesWithValidTLD env now u) (acc : Bool) (tick : Nat) :
    scanURLs env now urls acc tick = .ok (acc || containsHttp env urls, tick + urls.length) := by
  induction urls generalizing acc tick with
  | nil => simp [scanURLs, containsHttp]
  | cons u rest ih =>
    obtain ⟨purl, hp, hv⟩ := h u (List.mem_cons_self _ _)
    have hrest : ∀ v ∈ rest, parsesWithValidTLD env now v :=
      fun v hv => h v (List.mem_cons_of_mem _ hv)
    have hlen : tick + 1 + rest.length = tick + (rest.length + 1) := by omega
    by_cases hs : purl.Scheme = "http"
    · simp [scanURLs, hp, hv tick, hs, ih hrest, containsHttp, isHttp, hlen]
    · have hb : (purl.Scheme == "http") = false := by simp [hs]
      simp [scanURLs, hp, hv tick, hb, ih hrest, containsHttp, isHttp, hlen]

/-- When every URL of both lists parses and has a valid TLD, `Execute` only looks at the
schemes. -/
theorem Execute_of_valid (env : Env) (now : Nat → Time) (c : Certificate)
    (hO : ∀ u ∈ c.OCSPServer, parsesWithValidTLD env now u)
    (hI : ∀ u ∈ c.IssuingCertificateURL, parsesWithValidTLD env now u) :
    Execute env now c =
      if !containsHttp env c.OCSPServer && c.OCSPServer.length != 0 then
        ⟨.Error, httpDetail⟩
      else if !containsHttp env c.IssuingCertificateURL
          && c.IssuingCertificateURL.length != 0 then
        ⟨.Error, httpDetail⟩
      else ⟨.Pass, ""⟩ := by
  unfold Execute
  rw [scanURLs_of_valid env now _ hO]
  simp only [Bool.false_or]
  rw [scanURLs_of_valid env now _ hI]
  simp only [Bool.false_or]

/-! ## C1 -/

/-- C1: for every certificate in which every URL of `OCSPServer` and of
`IssuingCertificateURL` parses and has a hostname under a valid TLD, `Execute` returns
`Pass` if and only if each of the two lists that is non-empty contains a URL whose scheme
is `http`; otherwise it returns `Error` with the detail
"at least one accessMethod MUST have the URI scheme HTTP"; and it returns `Pass` when both
lists are empty. -/
theorem Execute_pass_iff_http (env : Env) (now : Nat → Time) (c : Certificate)
    (hO : ∀ u ∈ c.OCSPServer, parsesWithValidTLD env now u)
    (hI : ∀ u ∈ c.IssuingCertificateURL, parsesWithValidTLD env now u) :
    ((Execute env now c).Status = .Pass ↔ httpRequirementMet env c) ∧
    (httpRequirementMet env c → Execute env now c = ⟨.Pass, ""⟩) ∧
    (¬ httpRequirementMet env c → Execute env now c = ⟨.Error, httpDetail⟩) ∧
    (c.OCSPServer = [] → c.IssuingCertificateURL = [] →
      Execute env now c = ⟨.Pass, ""⟩) := by
  rw [Execute_of_valid env now c hO hI]
  unfold httpRequirementMet
  cases hcO : containsHttp env c.OCSPServer <;>
    cases hcI : containsHttp env c.IssuingCertificateURL <;>
    cases hlO : c.OCSPServer <;> cases hlI : c.IssuingCertificateURL <;>
    simp_all

theorem sample_valid_ocsp (now : Nat → Time) :
    parsesWithValidTLD sampleEnv now "http://ocsp.example.com" :=
  ⟨⟨"http", "ocsp.example.com"⟩, by decide, fun _ => by simp [sampleEnv, sampleHasValidTLD]⟩

theorem sample_valid_ldap (now : Nat → Time) :
    parsesWithValidTLD sampleEnv now "ldap://ldap.example.com/cn=CA" :=
  ⟨⟨"ldap", "ldap.example.com"⟩, by decide, fun _ => by simp [sampleEnv, sampleHasValidTLD]⟩

theorem sample_valid_issuer (now : Nat → Time) :
    parsesWithValidTLD sampleEnv now "http://ca.example.com/ca.crt" :=
  ⟨⟨"http", "ca.example.com"⟩, by decide, fun _ => by simp [sampleEnv, sampleHasValidTLD]⟩

theorem goodCert_valid (now : Nat → Time) :
    (∀ u ∈ goodCert.OCSPServer, parsesWithValidTLD sampleEnv now u) ∧
    (∀ u ∈ goodCert.IssuingCertificateURL, parsesWithValidTLD sampleEnv now u) := by
  constructor
  · intro u hu
    simp only [goodCert, aiaCert, List.mem_cons, List.mem_singleton, List.not_mem_nil,
      or_false] at hu
    rcases hu with rfl | rfl
    · exact sample_valid_ocsp now
    · exact sample_valid_ldap now
  · intro u hu
    simp only [goodCert, aiaCert, List.mem_singleton] at hu
    subst hu
    exact sample_valid_issuer now

/-- Witness of C1 on `goodCert`: the hypotheses hold and `Execute` returns `Pass`. -/
theorem Execute_pass_iff_http_witness :
    ((∀ u ∈ goodCert.OCSPServer, parsesWithValidTLD sampleEnv (constClock 0) u) ∧
      (∀ u ∈ goodCert.IssuingCertificateURL, parsesWithValidTLD sampleEnv (constClock 0) u)) ∧
    httpRequirementMet sampleEnv goodCert ∧
    Execute sampleEnv (constClock 0) goodCert = ⟨.Pass, ""⟩ :=
  have hreq : httpRequirementMet sampleEnv goodCert := ⟨fun _ => by decide, fun _ => by decide⟩
  ⟨goodCert_valid _, hreq,
    (Execute_pass_iff_http sampleEnv (constClock 0) goodCert
      (goodCert_valid _).1 (goodCert_valid _).2).2.1 hreq⟩

/-! ## C2 -/

/-- The loop gives the same outcome on two clocks at whose readings `HasValidTLD` answers
alike for the hostnames of the list. -/
theorem scanURLs_congr (env : Env) (now₁ now₂ : Nat → Time) (urls : List String)
    (h : ∀ u ∈ urls, ∀ purl, env.urlParse u = some purl →
      ∀ k, env.HasValidTLD purl.Hostname (now₁ k) = env.HasValidTLD purl.Hostname (now₂ k))
    (acc : Bool) (tick : Nat) :
    scanURLs env now₁ urls acc tick = scanURLs env now₂ urls acc tick := by
  induction urls generalizing acc tick with
  | nil => simp [scanURLs]
  | cons u rest ih =>
    have hrest := fun v hv => h v (List.mem_cons_of_mem u hv)
    cases hp : env.urlParse u with
    | none => simp [scanURLs, hp]
    | some purl =>
      simp [scanURLs, hp, h u (List.mem_cons_self _ _) purl hp tick, ih hrest]

/-- C2 (as stated, refuted): the certificate `activeCert`, whose OCSP responder is under the
gTLD `active`, gets `Pass` when `time.Now()` reads 2015-07-01, while `active` is in the root
zone, and `Warn` when it reads 2023-01-01, after the removal of `active`: two evaluations of
the same certificate at two moments return different statuses. -/
theorem Execute_depends_on_clock :
    Execute sampleEnv (constClock (-236822400)) activeCert = ⟨.Pass, ""⟩ ∧
    Execute sampleEnv (constClock 0) activeCert = ⟨.Warn, ""⟩ ∧
    (Execute sampleEnv (constClock (-236822400)) activeCert).Status ≠
      (Execute sampleEnv (constClock 0) activeCert).Status := by
  decide

/-- C2 (amended): the verdict is a function of the certificate and of the answers of
`util.HasValidTLD` at the clock readings: two evaluations in which `HasValidTLD` answers
alike, reading by reading, for the hostnames of the certificate return the same status and
the same details. -/
theorem Execute_deterministic_given_tld (env : Env) (c : Certificate)
    (now₁ now₂ : Nat → Time)
    (h : ∀ u ∈ c.OCSPServer ++ c.IssuingCertificateURL, ∀ purl, env.urlParse u = some purl →
      ∀ k, env.HasValidTLD purl.Hostname (now₁ k) = env.HasValidTLD purl.Hostname (now₂ k)) :
    Execute env now₁ c = Execute env now₂ c := by
  have hO := scanURLs_congr env now₁ now₂ c.OCSPServer
    (fun u hu => h u (List.mem_append_left _ hu))
  have hI := scanURLs_congr env now₁ now₂ c.IssuingCertificateURL
    (fun u hu => h u (List.mem_append_right _ hu))
  unfold Execute
  simp only [hO, hI]

/-- Witness of C2 (amended): `activeCert` at 2015-07-01 and at 2016-07-01, two moments at
which `active` is in the root zone. -/
theorem Execute_deterministic_given_tld_witness :
    Execute sampleEnv (constClock (-236822400)) activeCert =
      Execute sampleEnv (constClock (-205200000)) activeCert :=
  Execute_deterministic_given_tld sampleEnv activeCert (constClock (-236822400))
    (constClock (-205200000))
    (by
      intro u hu purl hp k
      simp only [activeCert, aiaCert, List.append_nil, List.mem_singleton] at hu
      subst hu
      have hpurl : purl = ⟨"http", "ocsp.example.active"⟩ := by
        have h0 : sampleEnv.urlParse "http://ocsp.example.active"
            = some ⟨"http", "ocsp.example.active"⟩ := by decide
        rw [h0] at hp
        exact (Option.some.inj hp).symm
      subst hpurl
      simp [sampleEnv, sampleHasValidTLD, constClock])

/-! ## C3 -/

/-- A `return` inside the loop carries `Error` or `Warn` and no detail. -/
theorem scanURLs_error (env : Env) (now : Nat → Time) (urls : List String)
    (acc : Bool) (tick : Nat) (r : LintResult)
    (h : scanURLs env now urls acc tick = .error r) :
    r = ⟨.Error, ""⟩ ∨ r = ⟨.Warn, ""⟩ := by
  induction urls generalizing acc tick with
  | nil => simp [scanURLs] at h
  | cons u rest ih =>
    unfold scanURLs at h
    cases hp : env.urlParse u with
    | none =>
      simp only [hp] at h
      exact Or.inl (Except.error.inj h).symm
    | some purl =>
      simp only [hp] at h
      split at h
      · exact Or.inr (Except.error.inj h).symm
      · split at h
        · exact ih _ _ h
        · exact ih _ _ h

/-- C3 (as stated, refuted): on a certificate whose only OCSP responder is an `ldap` URL the
lint named `w_smime_legacy_aia_contains_internal_names` returns `Error`, which is neither
`Pass` nor `Warn`; it returns `Error` too on a certificate whose only OCSP responder is the
unparsable `"://ocsp.example.com"`. -/
theorem Execute_returns_error :
    Execute sampleEnv (constClock 0) ldapOnlyCert = ⟨.Error, httpDetail⟩ ∧
    ¬ ((Execute sampleEnv (constClock 0) ldapOnlyCert).Status = .Pass ∨
       (Execute sampleEnv (constClock 0) ldapOnlyCert).Status = .Warn) ∧
    sampleEnv.urlParse "://ocsp.example.com" = none ∧
    Execute sampleEnv (constClock 0) (aiaCert ["://ocsp.example.com"] []) = ⟨.Error, ""⟩ := by
  decide

/-- C3 (amended): for every certificate `Execute` returns `Pass`, `Warn` or `Error`, never
`Notice`, `NotApplicable` or `Fatal`; `Pass` and `Warn` carry no detail and `Error` carries
none or the text on the missing `http` scheme. -/
theorem Execute_status_range (env : Env) (now : Nat → Time) (c : Certificate) :
    Execute env now c = ⟨.Pass, ""⟩ ∨ Execute env now c = ⟨.Warn, ""⟩ ∨
    Execute env now c = ⟨.Error, ""⟩ ∨ Execute env now c = ⟨.Error, httpDetail⟩ := by
  unfold Execute
  cases hO : scanURLs env now c.OCSPServer false 0 with
  | error r =>
    rcases scanURLs_error env now _ _ _ r hO with h | h <;> simp [h]
  | ok st =>
    obtain ⟨b, tick⟩ := st
    simp only
    split
    · simp
    · cases hI : scanURLs env now c.IssuingCertificateURL false tick with
      | error r =>
        rcases scanURLs_error env now _ _ _ r hI with h | h <;> simp [h]
      | ok st2 =>
        obtain ⟨b2, tick2⟩ := st2
        simp only
        split <;> simp

/-! ## C4 -/

/-- The loop returns `Warn` at the first URL whose hostname is under no valid TLD when the
URLs before it parse and have one. -/
theorem scanURLs_warn (env : Env) (now : Nat → Time) (pre post : List String) (u : String)
    (purl : URL) (hpre : ∀ v ∈ pre, parsesWithValidTLD env now v)
    (hu : env.urlParse u = some purl) (acc : Bool) (tick : Nat)
    (hbad : env.HasValidTLD purl.Hostname (now (tick + pre.length)) = false) :
    scanURLs env now (pre ++ u :: post) acc tick = .error ⟨.Warn, ""⟩ := by
  induction pre generalizing acc tick with
  | nil =>
    simp only [List.length_nil, Nat.add_zero] at hbad
    simp [scanURLs, hu, hbad]
  | cons v rest ih =>
    obtain ⟨pv, hpv, hvv⟩ := hpre v (List.mem_cons_self _ _)
    have hrest := fun w hw => hpre w (List.mem_cons_of_mem v hw)
    have hidx : tick + (v :: rest).length = tick + 1 + rest.length := by
      simp only [List.length_cons]; omega
    rw [hidx] at hbad
    by_cases hs : pv.Scheme = "http"
    · simp [scanURLs, hpv, hvv tick, hs, ih hrest _ _ hbad]
    · have hb : (pv.Scheme == "http") = false := by simp [hs]
      simp [scanURLs, hpv, hvv tick, hb, ih hrest _ _ hbad]

/-- C4 (as stated, refuted): the CA issuer URL of `internalIssuerCert` parses and its
hostname `ca.corp.internal` is under no valid TLD, yet `Execute` returns `Error`: the OCSP
list has no `http` URL and the function returns before it reads the second list. -/
theorem Execute_internal_name_not_warn :
    parsesWithInvalidTLD sampleEnv (constClock 0) "http://ca.corp.internal/ca.crt" ∧
    "http://ca.corp.internal/ca.crt" ∈ internalIssuerCert.IssuingCertificateURL ∧
    Execute sampleEnv (constClock 0) internalIssuerCert = ⟨.Error, httpDetail⟩ ∧
    (Execute sampleEnv (constClock 0) internalIssuerCert).Status ≠ .Warn :=
  ⟨⟨⟨"http", "ca.corp.internal"⟩, by decide, fun _ => by simp [sampleEnv, sampleHasValidTLD]⟩,
    by decide, by decide, by decide⟩

/-- C4 (amended): when a URL of `OCSPServer` or `IssuingCertificateURL` parses and its
hostname is not under a valid TLD at the reading of the clock taken for it, `Execute`
returns `Warn` provided every URL before it in its list parses and has a hostname under a
valid TLD and, for a URL of `IssuingCertificateURL`, every URL of `OCSPServer` does so too
and `OCSPServer` is empty or contains an `http` URL. -/
theorem Execute_warn_of_internal_name (env : Env) (now : Nat → Time) (c : Certificate)
    (pre post : List String) (u : String) (purl : URL)
    (hpre : ∀ v ∈ pre, parsesWithValidTLD env now v)
    (hu : env.urlParse u = some purl) :
    (c.OCSPServer = pre ++ u :: post →
      env.HasValidTLD purl.Hostname (now pre.length) = false →
      Execute env now c = ⟨.Warn, ""⟩) ∧
    ((∀ v ∈ c.OCSPServer, parsesWithValidTLD env now v) →
      (c.OCSPServer = [] ∨ containsHttp env c.OCSPServer = true) →
      c.IssuingCertificateURL = pre ++ u :: post →
      env.HasValidTLD purl.Hostname (now (c.OCSPServer.length + pre.length)) = false →
      Execute env now c = ⟨.Warn, ""⟩) := by
  constructor
  · intro hc hbad
    have hbad0 : env.HasValidTLD purl.Hostname (now (0 + pre.length)) = false := by
      simpa using hbad
    unfold Execute
    rw [hc, scanURLs_warn env now pre post u purl hpre hu false 0 hbad0]
  · intro hO hhttp hc hbad
    unfold Execute
    rw [scanURLs_of_valid env now _ hO]
    simp only [Bool.false_or, Nat.zero_add]
    rw [hc, scanURLs_warn env now pre post u purl hpre hu false _ hbad]
    rcases hhttp with h | h
    · simp [h]
    · simp [h]

/-- Witness of C4 (amended): the internal name is the last URL of `internalLastCert`, all
URLs before it are in order, and `Execute` returns `Warn`. -/
theorem Execute_warn_of_internal_name_witness :
    Execute sampleEnv (constClock 0) internalLastCert = ⟨.Warn, ""⟩ :=
  (Execute_warn_of_internal_name sampleEnv (constClock 0) internalLastCert
    ["http://ca.example.com/ca.crt"] [] "ldap://dc01.corp.internal/cn=CA"
    ⟨"ldap", "dc01.corp.internal"⟩
    (by
      intro v hv
      simp only [List.mem_singleton] at hv
      subst hv
      exact sample_valid_issuer _)
    (by decide)).2
    (by
      intro v hv
      simp only [internalLastCert, aiaCert, List.mem_singleton] at hv
      subst hv
      exact sample_valid_ocsp _)
    (Or.inr (by decide)) (by decide) (by decide)

/-! ## C5 -/

/-- When the loop runs to its end, every URL of the list parsed and had a hostname under a
valid TLD at one reading of the clock. -/
theorem scanURLs_ok_inv (env : Env) (now : Nat → Time) (urls : List String)
    (acc : Bool) (tick : Nat) (st : Bool × Nat)
    (h : scanURLs env now urls acc tick = .ok st) :
    ∀ u ∈ urls, ∃ purl, env.urlParse u = some purl ∧
      ∃ k, env.HasValidTLD purl.Hostname (now k) = true := by
  induction urls generalizing acc tick with
  | nil => simp
  | cons v rest ih =>
    unfold scanURLs at h
    cases hp : env.urlParse v with
    | none => simp [hp] at h
    | some pv =>
      simp only [hp] at h
      cases hv : env.HasValidTLD pv.Hostname (now tick) with
      | false => simp [hv] at h
      | true =>
        simp only [hv, Bool.not_true, Bool.false_eq_true, if_false] at h
        have hrest : ∀ u ∈ rest, ∃ purl, env.urlParse u = some purl ∧
            ∃ k, env.HasValidTLD purl.Hostname (now k) = true := by
          split at h
          · exact ih _ _ h
          · exact ih _ _ h
        intro u hu
        rcases List.mem_cons.mp hu with rfl | hu
        · exact ⟨pv, hp, tick, hv⟩
        · exact hrest u hu

/-- When `Execute` returns `Pass`, both loops ran to their end. -/
theorem Execute_pass_inv (env : Env) (now : Nat → Time) (c : Certificate)
    (h : (Execute env now c).Status = .Pass) :
    ∀ u ∈ c.OCSPServer ++ c.IssuingCertificateURL, ∃ purl, env.urlParse u = some purl ∧
      ∃ k, env.HasValidTLD purl.Hostname (now k) = true := by
  unfold Execute at h
  cases hO : scanURLs env now c.OCSPServer false 0 with
  | error r =>
    rw [hO] at h
    rcases scanURLs_error env now _ _ _ r hO with hr | hr <;> simp [hr] at h
  | ok st =>
    obtain ⟨b, tick⟩ := st
    rw [hO] at h
    simp only at h
    split at h
    · simp at h
    · cases hI : scanURLs env now c.IssuingCertificateURL false tick with
      | error r =>
        rw [hI] at h
        rcases scanURLs_error env now _ _ _ r hI with hr | hr <;> simp [hr] at h
      | ok st2 =>
        intro u hu
        rcases List.mem_append.mp hu with hu | hu
        · exact scanURLs_ok_inv env now _ _ _ _ hO u hu
        · exact scanURLs_ok_inv env now _ _ _ _ hI u hu

/-- Inserting a URL that is not an `http` URL does not change whether a list contains an
`http` URL. -/
theorem containsHttp_insert (env : Env) (pre post : List String) (u : String)
    (hu : isHttp env u = false) :
    containsHttp env (pre ++ u :: post) = containsHttp env (pre ++ post) := by
  simp [containsHttp, List.any_append, hu]

/-- C5 (as stated, refuted), twice. An `ldap` URL on an internal name added to the OCSP
list of `goodCert`, which has an `http` URL, turns `Pass` into `Warn`. And with a clock that
is set forward from 2015-07-01 to 2023-01-01 after its second reading, an `ldap` URL under
`com` added to the OCSP list moves the check of the CA issuer URL under `active` from the
second reading, at which `active` is in the root zone, to the third, at which it is removed,
which turns `Pass` into `Warn` too. -/
theorem Execute_insert_not_pass :
    (Execute sampleEnv (constClock 0) goodCert = ⟨.Pass, ""⟩ ∧
      containsHttp sampleEnv goodCert.OCSPServer = true ∧
      sampleEnv.urlParse "ldap://dc01.corp.internal/cn=CA"
        = some ⟨"ldap", "dc01.corp.internal"⟩ ∧
      Execute sampleEnv (constClock 0)
        { goodCert with OCSPServer :=
            ["http://ocsp.example.com", "ldap://dc01.corp.internal/cn=CA",
              "ldap://ldap.example.com/cn=CA"] } = ⟨.Warn, ""⟩) ∧
    (Execute sampleEnv steppedClock
        (aiaCert ["http://ocsp.example.com"] ["http://ca.example.active/ca.crt"])
        = ⟨.Pass, ""⟩ ∧
      sampleEnv.urlParse "ldap://ldap.example.com/cn=CA"
        = some ⟨"ldap", "ldap.example.com"⟩ ∧
      Execute sampleEnv steppedClock
        (aiaCert ["http://ocsp.example.com", "ldap://ldap.example.com/cn=CA"]
          ["http://ca.example.active/ca.crt"]) = ⟨.Warn, ""⟩) := by
  decide

/-- C5 (amended): for every certificate on which `Execute` returns `Pass` and whose
`OCSPServer` (respectively `IssuingCertificateURL`) list contains an `http` URL, adding to
that list, at any position, a further parsable URL with a scheme other than `http` and a
hostname under a valid TLD still yields `Pass`, provided the answers of `HasValidTLD` are
the same at all readings of the clock. -/
theorem Execute_pass_insert (env : Env) (now : Nat → Time) (c : Certificate)
    (pre post : List String) (u : String) (purl : URL)
    (hstable : ∀ host j k, env.HasValidTLD host (now j) = env.HasValidTLD host (now k))
    (hpass : (Execute env now c).Status = .Pass)
    (hu : env.urlParse u = some purl) (hs : purl.Scheme ≠ "http")
    (hv : env.HasValidTLD purl.Hostname (now 0) = true) :
    (c.OCSPServer = pre ++ post → containsHttp env c.OCSPServer = true →
      Execute env now { c with OCSPServer := pre ++ u :: post } = ⟨.Pass, ""⟩) ∧
    (c.IssuingCertificateURL = pre ++ post →
      containsHttp env c.IssuingCertificateURL = true →
      Execute env now { c with IssuingCertificateURL := pre ++ u :: post } = ⟨.Pass, ""⟩) := by
  have hall : ∀ v ∈ c.OCSPServer ++ c.IssuingCertificateURL, parsesWithValidTLD env now v := by
    intro v hvm
    obtain ⟨pv, hpv, k, hk⟩ := Execute_pass_inv env now c hpass v hvm
    exact ⟨pv, hpv, fun j => (hstable pv.Hostname j k).trans hk⟩
  have hO := fun v hvm => hall v (List.mem_append_left _ hvm)
  have hI := fun v hvm => hall v (List.mem_append_right _ hvm)
  have huv : parsesWithValidTLD env now u :=
    ⟨purl, hu, fun j => (hstable purl.Hostname j 0).trans hv⟩
  have hnot : isHttp env u = false := by simp [isHttp, hu, hs]
  have hold := Execute_of_valid env now c hO hI
  have hins : ∀ l : List String, l = pre ++ post → (∀ v ∈ l, parsesWithValidTLD env now v) →
      ∀ v ∈ pre ++ u :: post, parsesWithValidTLD env now v := by
    intro l hl hl2 v hvm
    rcases List.mem_append.mp hvm with hm | hm
    · exact hl2 v (hl ▸ List.mem_append_left _ hm)
    · rcases List.mem_cons.mp hm with rfl | hm
      · exact huv
      · exact hl2 v (hl ▸ List.mem_append_right _ hm)
  rw [hold] at hpass
  constructor
  · intro hc hhttp
    rw [Execute_of_valid env now { c with OCSPServer := pre ++ u :: post }
      (hins _ hc hO) hI]
    simp only [containsHttp_insert env pre post u hnot, ← hc, hhttp]
    simp only [hhttp] at hpass
    revert hpass
    cases containsHttp env c.IssuingCertificateURL <;>
      cases c.IssuingCertificateURL <;> simp
  · intro hc hhttp
    rw [Execute_of_valid env now { c with IssuingCertificateURL := pre ++ u :: post }
      hO (hins _ hc hI)]
    simp only [containsHttp_insert env pre post u hnot, ← hc, hhttp]
    simp only [hhttp] at hpass
    revert hpass
    cases containsHttp env c.OCSPServer <;> cases c.OCSPServer <;> simp

/-- Witness of C5 (amended): an `ldap` URL under `com` added to the CA issuer list of
`goodCert` leaves the verdict `Pass`. -/
theorem Execute_pass_insert_witness :
    (Execute sampleEnv (constClock 0) goodCert).Status = .Pass ∧
    containsHttp sampleEnv goodCert.IssuingCertificateURL = true ∧
    Execute sampleEnv (constClock 0) goodCertPlusLdap = ⟨.Pass, ""⟩ :=
  ⟨by decide, by decide,
    (Execute_pass_insert sampleEnv (constClock 0) goodCert
      ["http://ca.example.com/ca.crt"] [] "ldap://ldap.example.com/cn=CA"
      ⟨"ldap", "ldap.example.com"⟩ (fun _ _ _ => rfl) (by decide) (by decide) (by decide)
      (by decide)).2 rfl (by decide)⟩

/-! ## C6 -/

/-- C6: for every rule with effective date `D` and every certificate whose not-before is
earlier than `D`, the verdict is `NotApplicable` and `execute` is not invoked; a certificate
with not-before on or after `D` (and before the ineffective date, if one is set) proceeds to
`checkApplies` and, if that holds, to `execute`. For
`w_smime_legacy_aia_contains_internal_names`, `D` is `util.CABEffectiveDate`. -/
theorem runRule_time_window (r : Rule) (c : Certificate) :
    (c.NotBefore < r.descriptor.effectiveDate →
      runRule r c = (⟨.NotApplicable, ""⟩, 0)) ∧
    (r.descriptor.effectiveDate ≤ c.NotBefore →
      (∀ sunset, r.descriptor.ineffectiveDate = some sunset → c.NotBefore < sunset) →
      (r.checkApplies c = false → runRule r c = (⟨.NotApplicable, ""⟩, 0)) ∧
      (r.checkApplies c = true → ∀ verdict, r.execute c = .ok verdict →
        runRule r c = (verdict, 1))) ∧
    (∀ (env : Env) (now : Nat → Time) (D : Time) (legacy : Certificate → Bool),
      (c.NotBefore < D →
        runRule (smimeLegacyAIARule env now D legacy) c = (⟨.NotApplicable, ""⟩, 0)) ∧
      (D ≤ c.NotBefore → legacy c = true →
        runRule (smimeLegacyAIARule env now D legacy) c = (Execute env now c, 1))) := by
  refine ⟨?_, ?_, ?_⟩
  · intro h
    have h2 : ¬ (r.descriptor.effectiveDate ≤ c.NotBefore) := not_le.mpr h
    simp [runRule, inTimeWindow, h2]
  · intro h hs
    have hw : inTimeWindow r.descriptor c = true := by
      unfold inTimeWindow
      cases hi : r.descriptor.ineffectiveDate with
      | none => simp [h]
      | some sunset => simp [h, hs sunset hi]
    constructor
    · intro hc
      simp [runRule, hw, hc]
    · intro hc verdict hv
      simp [runRule, hw, hc, hv]
  · intro env now D legacy
    constructor
    · intro h
      have h2 : ¬ (D ≤ c.NotBefore) := not_le.mpr h
      simp [runRule, inTimeWindow, smimeLegacyAIARule, h2]
    · intro h hl
      simp [runRule, inTimeWindow, smimeLegacyAIARule, h, hl]

/-- Witness of C6: scenario 1 of section 8 (not-before `2019`, effective date `2020`) gives
`NotApplicable` without invoking the body, and the S/MIME lint with effective date `10` runs
`Execute` on `goodCert` moved to not-before `10`. -/
theorem runRule_time_window_witness :
    runRule exampleRule { goodCert with NotBefore := 2019 } = (⟨.NotApplicable, ""⟩, 0) ∧
    runRule (smimeLegacyAIARule sampleEnv (constClock 0) 10 (fun _ => true))
        { goodCert with NotBefore := 10 }
      = (Execute sampleEnv (constClock 0) { goodCert with NotBefore := 10 }, 1) :=
  ⟨(runRule_time_window exampleRule { goodCert with NotBefore := 2019 }).1 (by decide),
    ((runRule_time_window exampleRule { goodCert with NotBefore := 10 }).2.2
      sampleEnv (constClock 0) 10 (fun _ => true)).2 (by decide) rfl⟩

/-! ## C7 -/

/-- C7: for every certificate, the lint `e_validity_time_not_positive` yields `Error` when
the validity period is negative (not-after earlier than not-before) and `Pass` when it is
positive (not-after later than not-before). -/
theorem validityTimeNotPositive_verdict (zeroVerdict : LintStatus) (c : Certificate) :
    (c.NotAfter < c.NotBefore →
      (validityTimeNotPositive zeroVerdict c).Status = .Error) ∧
    (c.NotBefore < c.NotAfter →
      (validityTimeNotPositive zeroVerdict c).Status = .Pass) := by
  constructor
  · intro h
    simp [validityTimeNotPositive, h]
  · intro h
    have h2 : ¬ (c.NotAfter < c.NotBefore) := not_lt.mpr (le_of_lt h)
    simp [validityTimeNotPositive, h, h2]

/-- Witness of C7: a certificate valid from `5` to `3` gets `Error` and one valid from `3`
to `5` gets `Pass`. -/
theorem validityTimeNotPositive_verdict_witness :
    (validityTimeNotPositive .Notice ⟨5, 3, [], []⟩).Status = .Error ∧
    (validityTimeNotPositive .Notice ⟨3, 5, [], []⟩).Status = .Pass :=
  ⟨(validityTimeNotPositive_verdict .Notice ⟨5, 3, [], []⟩).1 (by decide),
    (validityTimeNotPositive_verdict .Notice ⟨3, 5, [], []⟩).2 (by decide)⟩

end ZLint
